import Mathlib

/-!
# Verification of the Strata CSM core against its specification

Shallow embedding of the parts of the repository that the claims concern:

* the sync-event journal (crates/db/src/sync_event/db.rs),
* the unfinalized block tracker (crates/consensus-logic/src/unfinalized_tracker.rs),
* the consensus transition function (crates/consensus-logic/src/transition.rs),
* the L1 writer watcher (crates/btcio/src/writer/task.rs).

Rust u64 indices and 32-byte identifiers (Buf32, L2BlockId) are modelled
as Nat (the claims never exercise overflow or the full identifier range);
HashMap/HashSet are modelled as association lists/lists without duplicate
keys, insertion-ordered — the claims are order-insensitive except where
the spec declares the order implementation-defined; RocksDB column families
are modelled as key-ascending association lists, matching iteration order.
Fallible Rust paths return Except; Rust panics (unwrap/expect/assert
failures) are explicit outcome constructors.
-/

namespace Strata

/-! ## Sync events (crates/state/src/sync_event.rs, variants as used by
transition.rs) -/

/-- Sync event that updates the consensus state.  Variants and payloads as
consumed by the function process_event in transition.rs. -/
inductive SyncEvent where
  | L1Block (height : Nat) (l1blkid : Nat)
  | L1DABatch (blkids : List Nat)
  | NewTipBlock (blkid : Nat)
  deriving DecidableEq

/-- Modelled from the spec: the stored record pairs the event with the
wall-clock insertion timestamp (the type SyncEventWithTimestamp lives in
sync_event/schemas.rs, which is not part of the snapshot; the spec says the
journal stores the triple of index, now_ms and event). -/
structure SyncEventWithTimestamp where
  timestamp : Nat
  event : SyncEvent
  deriving DecidableEq

/-- Database error type (crates/db/src/errors.rs).  The Rocksdb I/O variant
carries only a message here. -/
inductive DbError where
  | OooInsert (what : String) (idx : Nat)
  | MissingBlockInRange (what : String) (missing start stop : Nat)
  | Rocksdb (msg : String)
  | Unimplemented
  | Other (msg : String)
  deriving DecidableEq

/-! ## The sync-event journal (crates/db/src/sync_event/db.rs)

The sync_event column family is a RocksDB keyspace: a map from u64 keys
to values, iterated in ascending key order.  We embed it as an association
list kept in ascending key order, which is exactly the iteration order the
code relies on. -/

/-- Contents of the sync_event column family, in iteration (ascending key)
order. -/
abbrev Journal := List (Nat × SyncEventWithTimestamp)

/-- RocksDB point-put: replaces the value at an existing key in place, or
inserts the new key at its ordered position. -/
def putKV (j : Journal) (k : Nat) (v : SyncEventWithTimestamp) : Journal :=
  match j with
  | [] => [(k, v)]
  | (k0, v0) :: rest =>
    if k < k0 then (k, v) :: (k0, v0) :: rest
    else if k = k0 then (k, v) :: rest
    else (k0, v0) :: putKV rest k v

/-- RocksDB point-get. -/
def getKV (j : Journal) (k : Nat) : Option SyncEventWithTimestamp :=
  (j.find? (fun p => p.1 == k)).map (·.2)

/-- Embedding of SyncEventDB::get_last_key: seek the iterator to the last
entry and read its key. -/
def get_last_key (j : Journal) : Option Nat :=
  j.getLast?.map (·.1)

/-- Embedding of SyncEventStore::write_sync_event: assigns last_id + 1 (0
when the journal is empty), stores the timestamped event there, and returns
the new index.  The wall-clock reading is passed in as ts. -/
def write_sync_event (j : Journal) (ts : Nat) (ev : SyncEvent) : Nat × Journal :=
  let last_id := (get_last_key j).getD 0
  let id := last_id + 1
  (id, putKV j id ⟨ts, ev⟩)

/-- The half-open deletion scan inside clear_sync_event: walk the iterator
in order, stop at the first key at or beyond end_idx, and collect the keys
at or beyond start_idx seen before that. -/
def collectDeletions (j : Journal) (start_idx end_idx : Nat) : List Nat :=
  match j with
  | [] => []
  | (id, _) :: rest =>
    if end_idx ≤ id then []
    else if start_idx ≤ id then id :: collectDeletions rest start_idx end_idx
    else collectDeletions rest start_idx end_idx

/-- Application of a SchemaBatch of deletions. -/
def batchDelete (j : Journal) (ks : List Nat) : Journal :=
  j.filter (fun p => !(ks.contains p.1))

/-- Embedding of SyncEventStore::clear_sync_event: guards start_idx < end_idx,
non-empty journal, end_idx at most the last key; then deletes the keys in
the half-open range from start_idx to end_idx in one batch. -/
def clear_sync_event (j : Journal) (start_idx end_idx : Nat) :
    Except DbError Journal :=
  if ¬ (start_idx < end_idx) then
    .error (.Other "start_idx must be less than end_idx")
  else
    match get_last_key j with
    | some last_key =>
      if ¬ (end_idx ≤ last_key) then
        .error (.Other "end_idx must be less than or equal to last_key")
      else
        .ok (batchDelete j (collectDeletions j start_idx end_idx))
    | none => .error (.Other "cannot clear empty db")

/-- Embedding of SyncEventProvider::get_last_idx. -/
def get_last_idx (j : Journal) : Option Nat :=
  get_last_key j

/-- Embedding of SyncEventProvider::get_sync_event. -/
def get_sync_event (j : Journal) (idx : Nat) : Option SyncEvent :=
  (getKV j idx).map (·.event)

/-- Embedding of SyncEventProvider::get_event_timestamp. -/
def get_event_timestamp (j : Journal) (idx : Nat) : Option Nat :=
  (getKV j idx).map (·.timestamp)

/-- Sequence of write_sync_event calls; returns the assigned indices in
call order together with the final journal. -/
def appendAll (j : Journal) (evs : List (Nat × SyncEvent)) : List Nat × Journal :=
  match evs with
  | [] => ([], j)
  | (ts, ev) :: rest =>
    let r := write_sync_event j ts ev
    let rr := appendAll r.2 rest
    (r.1 :: rr.1, rr.2)

/-- The journal built by numbering evs consecutively starting at base + 1. -/
def numbered (base : Nat) : List (Nat × SyncEvent) → Journal
  | [] => []
  | (ts, ev) :: rest => (base + 1, ⟨ts, ev⟩) :: numbered (base + 1) rest

/-- Keys of a journal, in iteration order. -/
def keys (j : Journal) : List Nat := j.map Prod.fst

/-- The event used in the concrete journal scenarios. -/
def evScenario : SyncEvent := .NewTipBlock 0

/-- Journal after five appends into an empty journal. -/
def journal5 : Journal := (appendAll [] (List.replicate 5 (0, evScenario))).2

/-- Journal contents after clearing the range from 2 to 4 on journal5. -/
def journal5c : Journal :=
  [(1, ⟨0, evScenario⟩), (4, ⟨0, evScenario⟩), (5, ⟨0, evScenario⟩)]

/-! ## Unfinalized block tracker
(crates/consensus-logic/src/unfinalized_tracker.rs) -/

/-- L2 block id: a 32-byte Buf32, modelled as Nat; the all-zero Buf32 is 0. -/
abbrev L2BlockId := Nat

/-- Modelled from the spec: L2BlockHeader (from state/src/block.rs, not in
the snapshot) carries the parent id and height; attach_block reads only the
parent. -/
structure L2BlockHeader where
  parent : L2BlockId
  height : Nat
  deriving DecidableEq

/-- Modelled from the spec: ChainTipError (from consensus-logic/src/errors.rs,
not in the snapshot), with the variants unfinalized_tracker.rs constructs. -/
inductive ChainTipError where
  | BlockAlreadyAttached (b : L2BlockId)
  | AttachMissingParent (b parent : L2BlockId)
  | MissingBlock (b : L2BlockId)
  deriving DecidableEq

/-- Entry in the block tracker table relating a block with its immediate
relatives (struct BlockEntry).  The children field is a HashSet, modelled as
a duplicate-free list in insertion order. -/
structure BlockEntry where
  parent : L2BlockId
  children : List L2BlockId
  deriving DecidableEq

/-- The tracker state (struct UnfinalizedBlockTracker).  The pending_table
HashMap is modelled as a duplicate-free association list in insertion order;
unfinalized_tips is a HashSet. -/
structure UnfinalizedBlockTracker where
  finalized_tip : L2BlockId
  pending_table : List (L2BlockId × BlockEntry)
  unfinalized_tips : List L2BlockId
  deriving DecidableEq

/-- Map membership test (HashMap::contains_key). -/
def tblContains (m : List (L2BlockId × BlockEntry)) (k : L2BlockId) : Bool :=
  m.any (fun p => p.1 == k)

/-- Map lookup (HashMap::get). -/
def tblGet (m : List (L2BlockId × BlockEntry)) (k : L2BlockId) :
    Option BlockEntry :=
  (m.find? (fun p => p.1 == k)).map (·.2)

/-- Map insertion (HashMap::insert): overwrites an existing key in place,
appends a new key. -/
def tblInsert (m : List (L2BlockId × BlockEntry)) (k : L2BlockId)
    (v : BlockEntry) : List (L2BlockId × BlockEntry) :=
  match m with
  | [] => [(k, v)]
  | (k0, v0) :: rest =>
    if k = k0 then (k, v) :: rest else (k0, v0) :: tblInsert rest k v

/-- Map removal (HashMap::remove). -/
def tblRemove (m : List (L2BlockId × BlockEntry)) (k : L2BlockId) :
    List (L2BlockId × BlockEntry) :=
  m.filter (fun p => !(p.1 == k))

/-- Set insertion (HashSet::insert): no-op when present, appends otherwise. -/
def setInsert (s : List L2BlockId) (k : L2BlockId) : List L2BlockId :=
  if s.contains k then s else s ++ [k]

/-- Set removal (HashSet::remove). -/
def setRemove (s : List L2BlockId) (k : L2BlockId) : List L2BlockId :=
  s.filter (fun x => !(x == k))

/-- Embedding of UnfinalizedBlockTracker::new_empty: one entry with the
all-zero sentinel parent, one tip equal to the finalized tip. -/
def new_empty (finalized_tip : L2BlockId) : UnfinalizedBlockTracker :=
  { finalized_tip := finalized_tip
    pending_table := [(finalized_tip, ⟨0, []⟩)]
    unfinalized_tips := [finalized_tip] }

/-- Embedding of UnfinalizedBlockTracker::attach_block: rejects duplicates
and missing parents; otherwise inserts the entry, records the child on the
parent, replaces the parent with the new block in the tips set, and reports
whether a new fork tip was created. -/
def attach_block (t : UnfinalizedBlockTracker) (blkid : L2BlockId)
    (header : L2BlockHeader) :
    Except ChainTipError (Bool × UnfinalizedBlockTracker) :=
  if tblContains t.pending_table blkid then
    .error (.BlockAlreadyAttached blkid)
  else
    match tblGet t.pending_table header.parent with
    | none => .error (.AttachMissingParent blkid header.parent)
    | some parent_ent =>
      let tbl1 := tblInsert t.pending_table header.parent
        { parent_ent with children := setInsert parent_ent.children blkid }
      let tbl2 := tblInsert tbl1 blkid ⟨header.parent, []⟩
      let did_replace := t.unfinalized_tips.contains header.parent
      let tips := setInsert (setRemove t.unfinalized_tips header.parent) blkid
      .ok (!did_replace,
        { t with pending_table := tbl2, unfinalized_tips := tips })

/-- The recursion of sanity_check_parent_seq, with explicit fuel (the Rust
recursion has no bound; see sanity_check_parent_seq). -/
def sanity_check_fuel (t : UnfinalizedBlockTracker) :
    Nat → L2BlockId → Bool
  | 0, _ => false
  | fuel + 1, blkid =>
    if blkid = t.finalized_tip then true
    else
      match tblGet t.pending_table blkid with
      | some ent => sanity_check_fuel t fuel ent.parent
      | none => false

/-- Embedding of sanity_check_parent_seq: is the block traceable back to the
finalized tip?  Fuel one more than the table size covers every parent chain
that reaches the finalized tip without repeating an id, which is every chain
the attach_block API can build (on a cyclic chain the Rust recursion would
not terminate). -/
def sanity_check_parent_seq (t : UnfinalizedBlockTracker)
    (blkid : L2BlockId) : Bool :=
  sanity_check_fuel t (t.pending_table.length + 1) blkid

/-- Report of the blocks finalized and rejected by an update of the
finalized tip (struct FinalizeReport). -/
structure FinalizeReport where
  prev_tip : L2BlockId
  finalized : List L2BlockId
  rejected : List L2BlockId
  deriving DecidableEq

/-- Abort of one of the loops in update_finalized_tip: a Rust panic (an
unwrap, expect or assert failure), or fuel exhaustion (never reached on runs
the source terminates on). -/
inductive LoopAbort where
  | fuelOut
  | panicked (msg : String)
  deriving DecidableEq

/-- Outcome of update_finalized_tip; success and error carry the resulting
tracker state explicitly. -/
inductive UpdateOutcome where
  | ok (report : FinalizeReport) (t : UnfinalizedBlockTracker)
  | error (e : ChainTipError) (t : UnfinalizedBlockTracker)
  | panic (msg : String)
  | fuelOut
  deriving DecidableEq

/-- The walk loop of update_finalized_tip: starting at blkid, push the
current block onto the path, schedule every child of the current block that
differs from the current block for eviction, and step to the parent, until
the finalized tip is reached. -/
def walkPath (t : UnfinalizedBlockTracker) :
    Nat → L2BlockId → List L2BlockId → List L2BlockId →
    Except LoopAbort (List L2BlockId × List L2BlockId)
  | 0, _, _, _ => .error .fuelOut
  | fuel + 1, cur, path, to_evict =>
    if cur = t.finalized_tip then .ok (path, to_evict)
    else
      match tblGet t.pending_table cur with
      | none => .error (.panicked "chaintip: walk unwrap on missing entry")
      | some ent =>
        walkPath t fuel ent.parent (path ++ [cur])
          (to_evict ++ ent.children.filter (fun ch => ch != cur))

/-- The eviction loop of update_finalized_tip: pop from the back of the
worklist, remove the entry from table and tips — failing like the expect in
the source when it is absent — push its children, repeat. -/
def evictLoop :
    Nat → UnfinalizedBlockTracker → List L2BlockId → List L2BlockId →
    Except LoopAbort (UnfinalizedBlockTracker × List L2BlockId)
  | 0, _, _, _ => .error .fuelOut
  | fuel + 1, t, to_evict, evicted =>
    match to_evict.getLast? with
    | none => .ok (t, evicted)
    | some evicting =>
      match tblGet t.pending_table evicting with
      | none => .error (.panicked "chaintip: evicting dangling child ref")
      | some ent =>
        evictLoop fuel
          { t with pending_table := tblRemove t.pending_table evicting,
                   unfinalized_tips := setRemove t.unfinalized_tips evicting }
          (to_evict.dropLast ++ ent.children) (evicted ++ [evicting])

/-- The final removal loop of update_finalized_tip: removes every path block
except the new tip, asserting each was present. -/
def removePathEntries :
    UnfinalizedBlockTracker → L2BlockId → List L2BlockId →
    Except LoopAbort UnfinalizedBlockTracker
  | t, _, [] => .ok t
  | t, blkid, p :: rest =>
    if p = blkid then removePathEntries t blkid rest
    else if tblContains t.pending_table p then
      removePathEntries
        { t with pending_table := tblRemove t.pending_table p } blkid rest
    else .error (.panicked "assertion failed: removing path block")

/-- Embedding of UnfinalizedBlockTracker::update_finalized_tip. -/
def update_finalized_tip (t : UnfinalizedBlockTracker) (blkid : L2BlockId) :
    UpdateOutcome :=
  if sanity_check_parent_seq t blkid then
    let fuel := t.pending_table.length + 1
    match walkPath t fuel blkid [] [] with
    | .error .fuelOut => .fuelOut
    | .error (.panicked msg) => .panic msg
    | .ok (path, to_evict) =>
      match evictLoop fuel t to_evict [] with
      | .error .fuelOut => .fuelOut
      | .error (.panicked msg) => .panic msg
      | .ok (t1, evicted) =>
        if tblContains t1.pending_table t.finalized_tip then
          let t2 := { t1 with
            pending_table := tblRemove t1.pending_table t.finalized_tip }
          match removePathEntries t2 blkid path with
          | .error .fuelOut => .fuelOut
          | .error (.panicked msg) => .panic msg
          | .ok t3 =>
            if path.isEmpty then .panic "chaintip: somehow finalized no blocks"
            else .ok ⟨t.finalized_tip, path, evicted⟩
              { t3 with finalized_tip := blkid }
        else .panic "assertion failed: removing old finalized tip"
  else .error (.MissingBlock blkid) t

/-- A sequence of attach_block calls, each given as a pair of block id and
parent id. -/
def attachSeq (t : UnfinalizedBlockTracker) :
    List (L2BlockId × L2BlockId) → Except ChainTipError UnfinalizedBlockTracker
  | [] => .ok t
  | (blkid, parent) :: rest =>
    match attach_block t blkid ⟨parent, 0⟩ with
    | .error e => .error e
    | .ok (_, t2) => attachSeq t2 rest

/-! ## Consensus transition function
(crates/consensus-logic/src/transition.rs) -/

/-- Modelled from the spec: ConsensusState (from state/src/consensus.rs, not
in the snapshot) is the opaque deterministic fold of applied events;
process_event in the snapshot never reads it, so it is opaque here. -/
structure ConsensusState where
  deriving DecidableEq

/-- Modelled from the spec: rollup Params (horizon and genesis heights and
friends); process_event in the snapshot never reads them. -/
structure Params where
  deriving DecidableEq

/-- Manifest describing an L1 block (from crates/db/src/traits.rs). -/
structure L1BlockManifest where
  blockid : Nat
  header : List Nat
  txs_root : Nat
  deriving DecidableEq

/-- Modelled from the spec: an L2Block carries a header (parent id, height)
and body segments; process_event only tests presence. -/
structure L2Block where
  header : L2BlockHeader
  deriving DecidableEq

/-- Modelled from the spec plus the constructors transition.rs uses:
ConsensusWrite variants. -/
inductive ConsensusWrite where
  | AcceptL1Block (l1blkid : Nat)
  | AcceptL2Block (blkid : L2BlockId)
  | UpdateBuried (height : Nat)
  deriving DecidableEq

/-- Modelled from the spec plus the constructors transition.rs uses:
SyncAction variants. -/
inductive SyncAction where
  | TryCheckBlock (blkid : L2BlockId)
  | ExtendTip (blkid : L2BlockId)
  | RevertTip (blkid : L2BlockId)
  | UpdateTip (blkid : L2BlockId)
  deriving DecidableEq

/-- Output of a consensus state transition: writes plus actions. -/
structure ConsensusOutput where
  writes : List ConsensusWrite
  actions : List SyncAction
  deriving DecidableEq

/-- Modelled from the spec: the consensus-logic error type
(consensus-logic/src/errors.rs is not in the snapshot), with the variants
transition.rs constructs: database faults and MissingL2Block. -/
inductive Error where
  | Db (e : DbError)
  | MissingL2Block (id : L2BlockId)
  deriving DecidableEq

/-- Read-only view of the database as process_event consumes it: the
l1_manifest and l2_block column families. -/
structure DatabaseView where
  l1_manifests : List (Nat × L1BlockManifest)
  l2_blocks : List (L2BlockId × L2Block)
  deriving DecidableEq

/-- Embedding of L1DataProvider::get_block_manifest (a missing height
surfaces as a database error in the L1Block branch). -/
def get_block_manifest (db : DatabaseView) (height : Nat) :
    Option L1BlockManifest :=
  (db.l1_manifests.find? (fun p => p.1 == height)).map (·.2)

/-- Embedding of L2DataProvider::get_block_data. -/
def get_block_data (db : DatabaseView) (id : L2BlockId) : Option L2Block :=
  (db.l2_blocks.find? (fun p => p.1 == id)).map (·.2)

/-- The per-id loop of the L1DABatch branch: the first id whose block body
is missing, in list order. -/
def firstMissingBlock (db : DatabaseView) : List L2BlockId → Option L2BlockId
  | [] => none
  | id :: rest =>
    match get_block_data db id with
    | none => some id
    | some _ => firstMissingBlock db rest

/-- Embedding of process_event: the core state transition function. -/
def process_event (state : ConsensusState) (ev : SyncEvent) (db : DatabaseView)
    (params : Params) : Except Error ConsensusOutput :=
  match ev with
  | .L1Block height l1blkid =>
    match get_block_manifest db height with
    | none => .error (.Db (.Other "missing L1 block manifest"))
    | some _ => .ok ⟨[.AcceptL1Block l1blkid], []⟩
  | .L1DABatch blkids =>
    match firstMissingBlock db blkids with
    | some id => .error (.MissingL2Block id)
    | none => .ok ⟨[], []⟩
  | .NewTipBlock blkid =>
    match get_block_data db blkid with
    | none => .error (.MissingL2Block blkid)
    | some _ => .ok ⟨[.AcceptL2Block blkid], [.UpdateTip blkid]⟩

/-- An example database holding the single L2 block 7. -/
def exDb : DatabaseView := ⟨[], [(7, ⟨⟨0, 0⟩⟩)]⟩

/-! ## L1 writer watcher (crates/btcio/src/writer/task.rs) -/

/-- Modelled from the spec: reasons a transaction was excluded (the type
ExcludeReason lives in db/src/types.rs, not in the snapshot); the status
table distinguishes MissingInputsOrSpent from every other reason. -/
inductive ExcludeReason where
  | MissingInputsOrSpent
  | Other (reason : String)
  deriving DecidableEq

/-- Modelled from the spec: L1TxStatus is one of Unpublished, Published,
Confirmed with height, Finalized with height, or Excluded with a reason. -/
inductive L1TxStatus where
  | Unpublished
  | Published
  | Confirmed (height : Nat)
  | Finalized (height : Nat)
  | Excluded (reason : ExcludeReason)
  deriving DecidableEq

/-- Modelled from the spec: BlobL1Status, the blob lifecycle states. -/
inductive BlobL1Status where
  | Unsigned
  | NeedsResign
  | Unpublished
  | Published
  | Confirmed
  | Finalized
  | Excluded
  deriving DecidableEq

/-- Modelled from the spec: L1TxEntry is a raw transaction plus a status. -/
structure L1TxEntry where
  raw_tx : List Nat
  status : L1TxStatus
  deriving DecidableEq

/-- Modelled from the spec: BlobEntry is payload, status, commit_txid,
reveal_txid; txids modelled as Nat. -/
structure BlobEntry where
  payload : List Nat
  status : BlobL1Status
  commit_txid : Nat
  reveal_txid : Nat
  deriving DecidableEq

/-- Process-wide L1Status value, restricted to the one field the status
update arm of the watcher writes. -/
structure L1Status where
  last_published_txid : Option Nat
  deriving DecidableEq

/-- Embedding of determine_blob_next_status: derives the next status of a
blob from the commit and reveal transaction entries and the current status
(the source wraps the result in an anyhow Result that is always Ok). -/
def determine_blob_next_status (ctx rtx : L1TxEntry)
    (curr_status : BlobL1Status) : BlobL1Status :=
  match ctx.status, rtx.status with
  | _, .Finalized _ => .Finalized
  | _, .Confirmed _ => .Confirmed
  | _, .Published => .Published
  | .Excluded .MissingInputsOrSpent, _ => .NeedsResign
  | .Excluded _, _ => curr_status
  | _, _ => curr_status

/-- The status table of section 4.G of the spec, written row by row as the
spec states it: reveal Finalized gives Finalized; else reveal Confirmed gives
Confirmed; else reveal Published gives Published; else commit Excluded with
MissingInputsOrSpent gives NeedsResign; else commit Excluded with any other
reason leaves the status unchanged; otherwise unchanged. -/
def specNextStatus (commit reveal : L1TxStatus) (curr : BlobL1Status) :
    BlobL1Status :=
  match reveal with
  | .Finalized _ => .Finalized
  | .Confirmed _ => .Confirmed
  | .Published => .Published
  | _ =>
    match commit with
    | .Excluded .MissingInputsOrSpent => .NeedsResign
    | .Excluded _ => curr
    | _ => curr

/-- Embedding of check_and_update_blobentry_status: the status-update arm of
one watcher poll, reached for a blob whose current status is Published,
Confirmed, or Unpublished.  Returns the new watch cursor, the updated
L1Status, and the entry written back (none when the commit or reveal records
were missing and the poll only logs an error). -/
def check_and_update_blobentry_status
    (curr_blobidx : Nat) (curr_status : BlobL1Status) (blobentry : BlobEntry)
    (commit_tx reveal_tx : Option L1TxEntry) (l1_status : L1Status) :
    Nat × L1Status × Option BlobEntry :=
  match commit_tx, reveal_tx with
  | some ctx, some rtx =>
    let status := determine_blob_next_status ctx rtx curr_status
    let r :=
      if status = .Published ∨ status = .Confirmed ∨ status = .Finalized then
        (curr_blobidx,
          { l1_status with last_published_txid := some blobentry.reveal_txid })
      else if status = .Finalized ∨ status = .Confirmed then
        (curr_blobidx + 1, l1_status)
      else
        (curr_blobidx, l1_status)
    (r.1, r.2, some { blobentry with status := status })
  | _, _ => (curr_blobidx, l1_status, none)

end Strata

namespace Strata

/-! ## Supporting lemmas about the journal model -/

theorem mem_keys {j : Journal} {k : Nat} : k ∈ keys j ↔ ∃ v, (k, v) ∈ j := by
  constructor
  · intro h
    rcases List.mem_map.mp h with ⟨⟨a, b⟩, hm, he⟩
    exact ⟨b, by simpa using he ▸ hm⟩
  · rintro ⟨v, hv⟩
    exact List.mem_map.mpr ⟨(k, v), hv, rfl⟩

theorem getKV_isSome {j : Journal} {k : Nat} :
    (getKV j k).isSome = true ↔ k ∈ keys j := by
  induction j with
  | nil => simp [getKV, keys]
  | cons p rest ih =>
    by_cases h : p.1 = k
    · simp [getKV, keys, List.find?, h]
    · simp only [getKV, keys, List.find?, List.map_cons] at *
      rw [show (p.1 == k) = false by simpa using h]
      simp only [List.mem_cons]
      constructor
      · intro hh
        exact Or.inr (ih.mp hh)
      · intro hh
        rcases hh with hh | hh
        · exact absurd hh.symm h
        · exact ih.mpr hh

theorem get_sync_event_isSome {j : Journal} {idx : Nat} :
    (get_sync_event j idx).isSome = true ↔ idx ∈ keys j := by
  rw [← getKV_isSome]
  simp [get_sync_event]

theorem putKV_of_gt {j : Journal} {k : Nat} {v : SyncEventWithTimestamp}
    (h : ∀ p ∈ j, p.1 < k) : putKV j k v = j ++ [(k, v)] := by
  induction j with
  | nil => rfl
  | cons p rest ih =>
    have hp : p.1 < k := h p (List.mem_cons_self p rest)
    unfold putKV
    rw [if_neg (by omega), if_neg (by omega)]
    rw [ih (fun q hq => h q (List.mem_cons_of_mem p hq))]
    simp

theorem getKV_putKV {j : Journal} {k : Nat} {v : SyncEventWithTimestamp} :
    getKV (putKV j k v) k = some v := by
  induction j with
  | nil => simp [putKV, getKV, List.find?]
  | cons p rest ih =>
    unfold putKV
    by_cases h1 : k < p.1
    · rw [if_pos h1]
      simp [getKV, List.find?]
    · rw [if_neg h1]
      by_cases h2 : k = p.1
      · rw [if_pos h2]
        simp [getKV, List.find?]
      · rw [if_neg h2]
        simp only [getKV, List.find?]
        rw [show (p.1 == k) = false by simpa using fun hh => h2 hh.symm]
        exact ih

theorem appendAll_eq (evs : List (Nat × SyncEvent)) :
    ∀ (j : Journal) (m : Nat),
      (get_last_key j).getD 0 = m → (∀ p ∈ j, p.1 ≤ m) →
      appendAll j evs = (List.range' (m + 1) evs.length, j ++ numbered m evs) := by
  induction evs with
  | nil =>
    intro j m _ _
    simp [appendAll, numbered]
  | cons tv rest ih =>
    intro j m hm hb
    obtain ⟨ts, ev⟩ := tv
    have hput : putKV j (m + 1) ⟨ts, ev⟩ = j ++ [(m + 1, ⟨ts, ev⟩)] :=
      putKV_of_gt (fun p hp => Nat.lt_succ_of_le (hb p hp))
    have h1 : (get_last_key (j ++ [(m + 1, ⟨ts, ev⟩)])).getD 0 = m + 1 := by
      simp [get_last_key, List.getLast?_concat]
    have h2 : ∀ p ∈ j ++ [(m + 1, ⟨ts, ev⟩)], p.1 ≤ m + 1 := by
      intro p hp
      rcases List.mem_append.mp hp with hp | hp
      · exact Nat.le_succ_of_le (hb p hp)
      · rw [List.mem_singleton] at hp
        subst hp
        exact Nat.le.refl
    simp only [appendAll, write_sync_event, hm, hput]
    rw [ih _ (m + 1) h1 h2]
    simp [numbered, List.range'_succ, List.append_assoc]

theorem keys_numbered (evs : List (Nat × SyncEvent)) :
    ∀ m : Nat, keys (numbered m evs) = List.range' (m + 1) evs.length := by
  induction evs with
  | nil =>
    intro m
    simp [numbered, keys]
  | cons tv rest ih =>
    intro m
    obtain ⟨ts, ev⟩ := tv
    simp only [numbered, keys, List.map_cons, List.length_cons, List.range'_succ]
    congr 1
    exact ih (m + 1)

theorem numbered_key_gt {evs : List (Nat × SyncEvent)} :
    ∀ {m : Nat} {p}, p ∈ numbered m evs → m < p.1 := by
  induction evs with
  | nil =>
    intro m p h
    simp [numbered] at h
  | cons tv rest ih =>
    intro m p h
    obtain ⟨ts, ev⟩ := tv
    rcases List.mem_cons.mp h with rfl | h
    · exact Nat.lt_succ_self m
    · exact Nat.lt_of_succ_lt (Nat.lt_of_succ_le (Nat.succ_le_of_lt (ih h)))

theorem numbered_sorted (evs : List (Nat × SyncEvent)) :
    ∀ m : Nat, List.Pairwise (fun p q : Nat × SyncEventWithTimestamp => p.1 < q.1)
      (numbered m evs) := by
  induction evs with
  | nil =>
    intro m
    simp [numbered]
  | cons tv rest ih =>
    intro m
    obtain ⟨ts, ev⟩ := tv
    refine List.pairwise_cons.mpr ⟨?_, ih (m + 1)⟩
    intro q hq
    exact numbered_key_gt hq

theorem mem_collectDeletions {j : Journal}
    (hs : List.Pairwise (fun p q : Nat × SyncEventWithTimestamp => p.1 < q.1) j)
    {s e k : Nat} :
    k ∈ collectDeletions j s e ↔ (k ∈ keys j ∧ s ≤ k ∧ k < e) := by
  induction j with
  | nil => simp [collectDeletions, keys]
  | cons p rest ih =>
    rcases List.pairwise_cons.mp hs with ⟨hhead, htail⟩
    unfold collectDeletions
    by_cases he : e ≤ p.1
    · rw [if_pos he]
      simp only [List.not_mem_nil, false_iff, keys, List.map_cons, List.mem_cons]
      rintro ⟨hk | hk, hsk, hke⟩
      · omega
      · have := hhead _ (mem_keys.mp hk).choose_spec
        omega
    · rw [if_neg he]
      by_cases hsle : s ≤ p.1
      · rw [if_pos hsle]
        simp only [List.mem_cons, ih htail, keys, List.map_cons]
        constructor
        · rintro (rfl | ⟨hk, hs2, he2⟩)
          · exact ⟨Or.inl rfl, hsle, by omega⟩
          · exact ⟨Or.inr hk, hs2, he2⟩
        · rintro ⟨hk | hk, hs2, he2⟩
          · exact Or.inl hk
          · exact Or.inr ⟨hk, hs2, he2⟩
      · rw [if_neg hsle]
        rw [ih htail]
        simp only [keys, List.map_cons, List.mem_cons]
        constructor
        · rintro ⟨hk, hs2, he2⟩
          exact ⟨Or.inr hk, hs2, he2⟩
        · rintro ⟨hk | hk, hs2, he2⟩
          · omega
          · exact ⟨hk, hs2, he2⟩

theorem collectDeletions_lt {j : Journal} {s e k : Nat}
    (h : k ∈ collectDeletions j s e) : k < e := by
  induction j with
  | nil => simp [collectDeletions] at h
  | cons p rest ih =>
    unfold collectDeletions at h
    by_cases he : e ≤ p.1
    · rw [if_pos he] at h
      simp at h
    · rw [if_neg he] at h
      by_cases hsle : s ≤ p.1
      · rw [if_pos hsle] at h
        rcases List.mem_cons.mp h with rfl | h
        · omega
        · exact ih h
      · rw [if_neg hsle] at h
        exact ih h

theorem mem_keys_batchDelete {j : Journal} {ks : List Nat} {k : Nat} :
    k ∈ keys (batchDelete j ks) ↔ (k ∈ keys j ∧ k ∉ ks) := by
  constructor
  · intro h
    rcases mem_keys.mp h with ⟨v, hv⟩
    rcases List.mem_filter.mp hv with ⟨hm, hp⟩
    refine ⟨mem_keys.mpr ⟨v, hm⟩, ?_⟩
    intro hk
    rw [Bool.not_eq_true'] at hp
    exact absurd (List.elem_iff.mpr hk) (by simpa using hp)
  · rintro ⟨hk, hnk⟩
    rcases mem_keys.mp hk with ⟨v, hv⟩
    refine mem_keys.mpr ⟨v, List.mem_filter.mpr ⟨hv, ?_⟩⟩
    simp only [Bool.not_eq_true']
    cases hc : List.contains ks k
    · rfl
    · exact absurd (List.elem_iff.mp hc) hnk

theorem filter_getLast? {α : Type} {l : List α} {p : α → Bool} {a : α}
    (hl : l.getLast? = some a) (hp : p a = true) :
    (l.filter p).getLast? = some a := by
  induction l with
  | nil => simp at hl
  | cons x rest ih =>
    cases rest with
    | nil =>
      rw [List.getLast?_singleton] at hl
      cases hl
      simp [List.filter, hp]
    | cons y ys =>
      rw [List.getLast?_cons_cons] at hl
      have ihr := ih hl
      rw [List.filter_cons]
      by_cases hpx : p x = true
      · rw [if_pos hpx]
        cases hfr : List.filter p (y :: ys) with
        | nil =>
          rw [hfr] at ihr
          simp at ihr
        | cons z zs =>
          rw [hfr] at ihr
          rw [List.getLast?_cons_cons]
          exact ihr
      · rw [if_neg hpx]
        exact ihr

theorem find?_filter_key {j : Journal} {p : Nat × SyncEventWithTimestamp → Bool}
    {k : Nat} (h : ∀ x ∈ j, x.1 = k → p x = true) :
    (j.filter p).find? (fun x => x.1 == k) = j.find? (fun x => x.1 == k) := by
  induction j with
  | nil => rfl
  | cons x rest ih =>
    by_cases hk : x.1 = k
    · have hpx := h x (List.mem_cons_self x rest) hk
      rw [List.filter_cons, if_pos hpx]
      rw [List.find?_cons_of_pos _ (by simpa using hk),
        List.find?_cons_of_pos _ (by simpa using hk)]
    · have ih2 := ih (fun q hq => h q (List.mem_cons_of_mem x hq))
      rw [List.filter_cons]
      by_cases hpx : p x = true
      · rw [if_pos hpx]
        rw [List.find?_cons_of_neg _ (by simpa using hk),
          List.find?_cons_of_neg _ (by simpa using hk)]
        exact ih2
      · rw [if_neg hpx]
        rw [ih2]
        rw [List.find?_cons_of_neg _ (by simpa using hk)]

end Strata

namespace Strata

/-! ## Claim theorems -/

/-- C6: on a journal holding events at indices 1..5, clearing the range from
2 to 4 succeeds and deletes exactly indices 2 and 3: afterwards indices 1, 4,
5 are readable, 2 and 3 are gone, and the last index is still 5. -/
theorem clear_range_on_five_event_journal :
    clear_sync_event journal5 2 4 = .ok journal5c ∧
    (get_sync_event journal5c 1).isSome = true ∧
    (get_sync_event journal5c 4).isSome = true ∧
    (get_sync_event journal5c 5).isSome = true ∧
    get_sync_event journal5c 2 = none ∧
    get_sync_event journal5c 3 = none ∧
    get_last_idx journal5c = some 5 :=
  ⟨rfl, by decide, by decide, by decide, by decide, by decide, by decide⟩

/-- C7: write_sync_event assigns and returns one more than the last index
and stores the event there; an empty journal assigns index 1 (not 0); n
consecutive appends into an empty journal return the indices 1, ..., n in
order. -/
theorem write_sync_event_assigns_next_index :
    (∀ (j : Journal) (ts : Nat) (ev : SyncEvent),
      (write_sync_event j ts ev).1 = (get_last_key j).getD 0 + 1 ∧
      get_sync_event (write_sync_event j ts ev).2 (write_sync_event j ts ev).1 =
        some ev)
    ∧ (∀ (ts : Nat) (ev : SyncEvent), (write_sync_event [] ts ev).1 = 1)
    ∧ (∀ evs : List (Nat × SyncEvent),
        (appendAll [] evs).1 = List.range' 1 evs.length) := by
  refine ⟨fun j ts ev => ⟨rfl, ?_⟩, fun ts ev => rfl, fun evs => ?_⟩
  · simp only [write_sync_event, get_sync_event, getKV_putKV, Option.map_some']
  · rw [appendAll_eq evs [] 0 rfl (by simp)]

/-- C4, counterexample: immediately after the successful call clearing the
range from 2 to 4 on journal5, the present indices are 1, 4 and 5, which is
not a dense prefix for any N. -/
theorem journal_density_fails_after_clear :
    clear_sync_event journal5 2 4 = .ok journal5c ∧
    ¬ ∃ N : Nat, ∀ i : Nat,
        (get_sync_event journal5c i).isSome = true ↔ (1 ≤ i ∧ i ≤ N) := by
  refine ⟨rfl, ?_⟩
  rintro ⟨N, h⟩
  have h4 : 4 ≤ N := ((h 4).mp (by decide)).2
  have h2 : (get_sync_event journal5c 2).isSome = true :=
    (h 2).mpr ⟨by omega, by omega⟩
  exact absurd h2 (by decide)

/-- C4, amended: the present indices form a dense prefix at every moment of
an append-only history; a successful clear_sync_event removes exactly the
indices of its half-open range (and may therefore leave a gap). -/
theorem journal_density_amended :
    (∀ (evs : List (Nat × SyncEvent)) (i : Nat),
      (get_sync_event (appendAll [] evs).2 i).isSome = true ↔
        1 ≤ i ∧ i ≤ evs.length)
    ∧ (∀ (evs : List (Nat × SyncEvent)) (s e : Nat) (j2 : Journal),
        clear_sync_event (appendAll [] evs).2 s e = .ok j2 →
        ∀ i : Nat, (get_sync_event j2 i).isSome = true ↔
          (1 ≤ i ∧ i ≤ evs.length ∧ ¬ (s ≤ i ∧ i < e))) := by
  have hj : ∀ evs : List (Nat × SyncEvent),
      (appendAll [] evs).2 = numbered 0 evs := by
    intro evs
    rw [appendAll_eq evs [] 0 rfl (by simp)]
    simp
  constructor
  · intro evs i
    rw [hj, get_sync_event_isSome, keys_numbered, List.mem_range'_1]
    omega
  · intro evs s e j2 hok i
    rw [hj] at hok
    unfold clear_sync_event at hok
    split at hok
    · cases hok
    · split at hok
      · split at hok
        · cases hok
        · rw [Except.ok.injEq] at hok
          subst hok
          rw [get_sync_event_isSome, mem_keys_batchDelete,
            mem_collectDeletions (numbered_sorted evs 0), keys_numbered,
            List.mem_range'_1]
          omega
      · cases hok

/-- Witness for journal_density_amended on the five-event scenario. -/
theorem journal_density_amended_witness :
    clear_sync_event (appendAll [] (List.replicate 5 (0, evScenario))).2 2 4 =
      .ok journal5c ∧
    ((get_sync_event journal5c 4).isSome = true ↔
      (1 ≤ 4 ∧ 4 ≤ 5 ∧ ¬ ((2 : Nat) ≤ 4 ∧ 4 < 4))) :=
  ⟨rfl, journal_density_amended.2 (List.replicate 5 (0, evScenario)) 2 4
    journal5c rfl 4⟩

/-- C10: a successful clear_sync_event preserves the greatest index: the
last index is unchanged and the event stored there is still readable. -/
theorem clear_sync_event_preserves_last (j j2 : Journal) (s e last : Nat)
    (hok : clear_sync_event j s e = .ok j2)
    (hlast : get_last_idx j = some last) :
    get_last_idx j2 = some last ∧
    get_sync_event j2 last = get_sync_event j last := by
  unfold clear_sync_event at hok
  split at hok
  · cases hok
  · split at hok
    · rename_i last_key hlk
      split at hok
      · cases hok
      · rename_i hee
        rw [Except.ok.injEq] at hok
        subst hok
        rw [not_not] at hee
        have hlk2 : last_key = last := by
          rw [get_last_idx, hlk] at hlast
          exact (Option.some.injEq _ _).mp hlast
        subst hlk2
        have hdel : ∀ k ∈ collectDeletions j s e, k < e :=
          fun k hk => collectDeletions_lt hk
        have hkeep : ∀ x : Nat × SyncEventWithTimestamp, x.1 = last_key →
            (!((collectDeletions j s e).contains x.1)) = true := by
          intro x hx
          cases hc : (collectDeletions j s e).contains x.1
          · rfl
          · have := hdel _ (List.elem_iff.mp hc)
            omega
        obtain ⟨a, ha, hfa⟩ := Option.map_eq_some'.mp hlk
        constructor
        · unfold get_last_idx get_last_key batchDelete
          rw [filter_getLast? ha (hkeep a hfa)]
          simp [hfa]
        · unfold get_sync_event getKV batchDelete
          rw [find?_filter_key (fun x _ hx => hkeep x hx)]
    · cases hok

/-- Witness for clear_sync_event_preserves_last at the five-event journal. -/
theorem clear_sync_event_preserves_last_witness :
    clear_sync_event journal5 2 4 = .ok journal5c ∧
    get_last_idx journal5 = some 5 ∧
    (get_last_idx journal5c = some 5 ∧
     get_sync_event journal5c 5 = get_sync_event journal5 5) :=
  ⟨rfl, by decide,
    clear_sync_event_preserves_last journal5 journal5c 2 4 5 rfl (by decide)⟩

end Strata

namespace Strata

/-- C1 (code bug): on the S3 fork scenario with the chain 1, 2, 3, 5 and the
competing branch from 2 to 4, attached in order 2, 3, 4, 5, finalizing block
5 does not return a report: the eviction scheduling compares each child of
the current walk block against the current block itself (always distinct), so
the path blocks themselves are scheduled for eviction and the eviction loop
panics on the double removal — exactly the expect message in the source. -/
theorem fork_finalize_scenario_panics :
    (attachSeq (new_empty 1) [(2, 1), (3, 2), (4, 2), (5, 3)]).map
      (fun t => update_finalized_tip t 5) =
    .ok (.panic "chaintip: evicting dangling child ref") := rfl

/-- C5: attaching a single block b under the root and finalizing b yields a
report with the root as previous tip, just b finalized and nothing rejected,
and afterwards b is both the finalized tip and the sole unfinalized tip. -/
theorem attach_finalize_single_roundtrip (root b : L2BlockId) (h : b ≠ root) :
    attach_block (new_empty root) b ⟨root, 0⟩ =
      .ok (false,
        { finalized_tip := root,
          pending_table := [(root, ⟨0, [b]⟩), (b, ⟨root, []⟩)],
          unfinalized_tips := [b] }) ∧
    update_finalized_tip
      { finalized_tip := root,
        pending_table := [(root, ⟨0, [b]⟩), (b, ⟨root, []⟩)],
        unfinalized_tips := [b] } b =
      .ok ⟨root, [b], []⟩
        { finalized_tip := b,
          pending_table := [(b, ⟨root, []⟩)],
          unfinalized_tips := [b] } := by
  have hbr : (b == root) = false := by simpa using h
  have hrb : (root == b) = false := by simpa using fun hh => h hh.symm
  constructor
  · simp [attach_block, tblContains, tblGet, tblInsert, setInsert, setRemove,
      new_empty, hbr, hrb, List.find?, h]
  · simp [update_finalized_tip, sanity_check_parent_seq, sanity_check_fuel,
      walkPath, evictLoop, removePathEntries, tblGet, tblContains, tblRemove,
      setRemove, List.find?, hbr, hrb, h]

/-- Witness for attach_finalize_single_roundtrip at root 1, block 2. -/
theorem attach_finalize_single_roundtrip_witness :
    (2 : L2BlockId) ≠ 1 ∧
    (attach_block (new_empty 1) 2 ⟨1, 0⟩ =
      .ok (false,
        { finalized_tip := 1,
          pending_table := [(1, ⟨0, [2]⟩), (2, ⟨1, []⟩)],
          unfinalized_tips := [2] }) ∧
    update_finalized_tip
      { finalized_tip := 1,
        pending_table := [(1, ⟨0, [2]⟩), (2, ⟨1, []⟩)],
        unfinalized_tips := [2] } 2 =
      .ok ⟨1, [2], []⟩
        { finalized_tip := 2,
          pending_table := [(2, ⟨1, []⟩)],
          unfinalized_tips := [2] }) :=
  ⟨by decide, attach_finalize_single_roundtrip 1 2 (by decide)⟩

/-- C8: finalizing a block that is not reachable from the finalized tip via
parent pointers returns MissingBlock and leaves the tracker untouched (the
state carried by the error outcome is literally the input state: same
finalized tip, same pending table, same tips). -/
theorem finalize_unreachable_errors_unchanged (t : UnfinalizedBlockTracker)
    (b : L2BlockId) (h : sanity_check_parent_seq t b = false) :
    update_finalized_tip t b = .error (.MissingBlock b) t := by
  unfold update_finalized_tip
  rw [h]
  simp

/-- Witness for finalize_unreachable_errors_unchanged on a fresh tracker. -/
theorem finalize_unreachable_errors_unchanged_witness :
    sanity_check_parent_seq (new_empty 1) 2 = false ∧
    update_finalized_tip (new_empty 1) 2 = .error (.MissingBlock 2) (new_empty 1) :=
  ⟨by decide, finalize_unreachable_errors_unchanged (new_empty 1) 2 (by decide)⟩

/-- C3 (code bug): when every L2 block listed in an L1DABatch event is
present, process_event succeeds — but with NO writes: the batch observation
is not recorded (the branch body is a TODO in the source), contradicting the
requirement that at least the L2 ids of the batch be recorded as accepted. -/
theorem da_batch_emits_no_writes (state : ConsensusState) (db : DatabaseView)
    (params : Params) (blkids : List L2BlockId)
    (h : ∀ id ∈ blkids, (get_block_data db id).isSome = true) :
    process_event state (.L1DABatch blkids) db params = .ok ⟨[], []⟩ := by
  have hfm : firstMissingBlock db blkids = none := by
    induction blkids with
    | nil => rfl
    | cons id rest ih =>
      have hhead := h id (List.mem_cons_self id rest)
      unfold firstMissingBlock
      cases hg : get_block_data db id with
      | none =>
        rw [hg] at hhead
        simp at hhead
      | some blk => exact ih (fun q hq => h q (List.mem_cons_of_mem id hq))
  simp only [process_event, hfm]

/-- Witness for da_batch_emits_no_writes on a batch of one present block. -/
theorem da_batch_emits_no_writes_witness :
    (get_block_data exDb 7).isSome = true ∧
    process_event ⟨⟩ (.L1DABatch [7]) exDb ⟨⟩ = .ok ⟨[], []⟩ :=
  ⟨by decide, da_batch_emits_no_writes ⟨⟩ exDb ⟨⟩ [7] (by decide)⟩

/-- C9: determine_blob_next_status is a pure function of the commit status,
the reveal status and the current blob status, and agrees with the status
table of the spec on every input. -/
theorem determine_blob_next_status_matches_table
    (ctx rtx : L1TxEntry) (curr : BlobL1Status) :
    determine_blob_next_status ctx rtx curr =
      specNextStatus ctx.status rtx.status curr := by
  obtain ⟨craw, cs⟩ := ctx
  obtain ⟨rraw, rs⟩ := rtx
  cases cs with
  | Unpublished => cases rs <;> rfl
  | Published => cases rs <;> rfl
  | Confirmed h => cases rs <;> rfl
  | Finalized h => cases rs <;> rfl
  | Excluded r => cases r <;> cases rs <;> rfl

/-- C2 (code bug): the status-update arm of the watcher never advances the
watch cursor — the cursor increment sits in a branch whose condition implies
the preceding condition, so it is dead code — in particular on a poll where
the derived next status is Confirmed the cursor stays put. -/
theorem watcher_cursor_never_advances :
    (∀ (curr_blobidx : Nat) (curr_status : BlobL1Status) (be : BlobEntry)
        (ctx rtx : Option L1TxEntry) (l1s : L1Status),
      (check_and_update_blobentry_status curr_blobidx curr_status be
        ctx rtx l1s).1 = curr_blobidx)
    ∧ determine_blob_next_status ⟨[], .Published⟩ ⟨[], .Confirmed 5⟩
        .Published = .Confirmed
    ∧ (check_and_update_blobentry_status 0 .Published ⟨[], .Published, 1, 2⟩
        (some ⟨[], .Published⟩) (some ⟨[], .Confirmed 5⟩) ⟨none⟩).1 = 0 := by
  refine ⟨?_, rfl, rfl⟩
  intro idx cs be ctx rtx l1s
  cases ctx with
  | none => rfl
  | some c =>
    cases rtx with
    | none => rfl
    | some r =>
      simp only [check_and_update_blobentry_status]
      by_cases h1 : determine_blob_next_status c r cs = .Published ∨
          determine_blob_next_status c r cs = .Confirmed ∨
          determine_blob_next_status c r cs = .Finalized
      · rw [if_pos h1]
      · rw [if_neg h1, if_neg (fun h2 => h1 (h2.elim
          (fun a => Or.inr (Or.inr a)) (fun a => Or.inr (Or.inl a))))]

end Strata
